import Mathlib

/-!
Shallow embedding of the `bitvec` buffer core: the range-normalization
utilities of `src/bitvec/src/devel.rs` and the `BitVec` buffer operations of
`src/bitvec/src/vec.rs`.  Machine memory is modelled either at element
granularity (`EBuf`, a map from element index to element value) or at bit
granularity (`BitBuf`, a map from physical bit position to bit value),
whichever matches the operation under study.
-/

namespace BitvecModel

/-- Modelled from the spec: `BitPtr::elements` is not among the provided
sources (only its caller `BitVec::elements` in vec.rs is).  The spec defines
the touched-element count of a region as `ceil((head + len) / bits_per_element)`,
rendered here with the usual natural-number ceiling division. -/
def elements (w head len : Nat) : Nat :=
  (head + len + w - 1) / w

/-- Rust `core::ops::Bound<&usize>`, as consumed by `normalize_range`. -/
inductive Bound where
  | included : Nat → Bound
  | excluded : Nat → Bound
  | unbounded : Bound

/-- `normalize_range` from devel.rs lines 107-120: unpacks any range shape
into an ordinary half-open pair `(min, max)`. -/
def normalize_range (startBound endBound : Bound) (endDefault : Nat) :
    Nat × Nat :=
  let lo := match startBound with
    | Bound.included n => n
    | Bound.excluded n => n + 1
    | Bound.unbounded => 0
  let hi := match endBound with
    | Bound.included n => n + 1
    | Bound.excluded n => n
    | Bound.unbounded => endDefault
  (lo, hi)

/-- The two distinct bounds failures of `assert_range` (devel.rs lines
138-151), each carrying the offending values that the panic messages name. -/
inductive RangeError where
  | malformed (start stop : Nat)
  | outOfBounds (start stop limit : Nat)
deriving DecidableEq

/-- `assert_range` from devel.rs lines 137-152; the panics are embedded as
`Except.error`.  The malformed check runs first, then the bounds check when a
limit is supplied. -/
def assert_range (start stop : Nat) (limit : Option Nat) :
    Except RangeError Unit :=
  if start > stop then
    Except.error (RangeError.malformed start stop)
  else
    match limit with
    | some e =>
      if stop > e then Except.error (RangeError.outOfBounds start stop e)
      else Except.ok ()
    | none => Except.ok ()

/-- An owned bit-buffer viewed at element granularity: `head`/`len` describe
the live bit window, `cap` is the allocated element count, and `mem` maps each
allocated element index to its current value.  This is the element-level view
of `BitVec`'s region (vec.rs lines 130-140) needed by the bulk element
fill. -/
structure EBuf where
  head : Nat
  len : Nat
  cap : Nat
  mem : Nat → Nat

/-- `BitVec::set_elements` from vec.rs lines 241-245: writes `v` through the
buffer's element-slice view.  `as_mut_slice` itself is not among the provided
sources; modelled from the spec: a region's element-slice view covers exactly
its `elements()` touched elements (spec section 3, derived `elements`), which
is also what the in-source doc comment of `set_elements` calls the live
locations. -/
def set_elements (w : Nat) (b : EBuf) (v : Nat) : EBuf :=
  { b with mem := fun i => if i < elements w b.head b.len then v else b.mem i }

/-- Modelled from the spec: `BitVec::with_capacity` is not among the provided
sources; the spec gives an empty buffer whose allocation holds `n` bits
rounded up to whole elements.  Uninitialized memory is represented by the
arbitrary `junk` value. -/
def with_capacity (w n junk : Nat) : EBuf :=
  { head := 0, len := 0, cap := elements w 0 n, mem := fun _ => junk }

/-- Modelled from the spec: `BitVec::set_len` is not among the provided
sources; the spec says it updates the live length without touching the
memory. -/
def set_len (b : EBuf) (n : Nat) : EBuf :=
  { b with len := n }

/-- `BitVec::repeat` from vec.rs lines 162-169: allocate for `len` bits, mark
`len` bits live, then bulk-fill with the all-ones (`T::Mem::ALL`) or all-zeros
(`T::Mem::ZERO`) element pattern.  (The source name `repeat` is a reserved
Lean token.) -/
def repeatBits (w : Nat) (bit : Bool) (len junk : Nat) : EBuf :=
  set_elements w (set_len (with_capacity w len junk) len)
    (if bit then 2 ^ w - 1 else 0)

/-- The value of live bit `i` of an element-level buffer: bit `(head + i) % w`
of element `(head + i) / w`, the fixed order-mapping of this embedding. -/
def getBit (w : Nat) (b : EBuf) (i : Nat) : Bool :=
  Nat.testBit (b.mem ((b.head + i) / w)) ((b.head + i) % w)

/-- Concrete buffer for the C1 counterexample: 4 live bits with 8-bit
elements, but 2 allocated elements, all holding 0. -/
def exC1 : EBuf :=
  { head := 0, len := 4, cap := 2, mem := fun _ => 0 }

/-- An owned bit-buffer viewed at bit granularity: `base` is the abstract
address of the allocation, `head`/`len` the live bit window, `cap` the
allocated element count, and `mem` maps each physical bit position (relative
to `base`) to its value.  This is the bit-level view of `BitVec`'s region
(vec.rs lines 130-140). -/
structure BitBuf where
  base : Nat
  head : Nat
  len : Nat
  cap : Nat
  mem : Nat → Bool

/-- The value of live bit `i` of a bit-level buffer: physical bit
`head + i`. -/
def liveBit (b : BitBuf) (i : Nat) : Bool :=
  b.mem (b.head + i)

/-- `BitVec::force_align` from vec.rs lines 478-490: a no-op when the head is
already 0; otherwise the head is set to 0 and the physical bit window
`[head, head + len)` is copied down to `[0, len)` (the memmove semantics of
`copy_within_unchecked`), leaving bits at positions `len` and beyond as they
were. -/
def force_align (b : BitBuf) : BitBuf :=
  if b.head = 0 then b
  else
    { b with
      head := 0,
      mem := fun j => if j < b.len then b.mem (b.head + j) else b.mem j }

/-- Modelled from the spec: `BitVec::reserve` is not among the provided
sources.  Per the spec, capacity grows to hold at least `len + additional`
live bits (counted from the head offset); when the current allocation already
suffices nothing changes, otherwise the buffer is reallocated: the base
address changes, capacity grows (amortized doubling, at least the needed
element count) and the contents are carried over bit-for-bit. -/
def reserve (w : Nat) (b : BitBuf) (additional : Nat) : BitBuf :=
  if b.head + b.len + additional ≤ b.cap * w then b
  else
    { b with
      base := b.base + b.cap + 1,
      cap := max (2 * b.cap) (elements w b.head (b.len + additional)) }

/-- `BitVec::extend_from_bitslice` from vec.rs lines 370-379: remember the old
length, reserve room for `other`, extend the live length by `other`'s length,
and clone `other`'s bits into the newly-live tail positions. -/
def extend_from_bitslice (w : Nat) (b : BitBuf) (other : List Bool) : BitBuf :=
  let b1 := reserve w b other.length
  { b1 with
    len := b1.len + other.length,
    mem := fun j =>
      if b1.head + b1.len ≤ j ∧ j < b1.head + b1.len + other.length then
        other.getD (j - (b1.head + b1.len)) false
      else b1.mem j }

/-- The temporary `Vec<T::Mem>` handed to the callback of
`BitVec::with_vec`: its base address, element length, element capacity, and
(bit-granular view of) its contents. -/
structure MVec where
  base : Nat
  length : Nat
  cap : Nat
  mem : Nat → Bool

/-- `BitVec::with_vec` from vec.rs lines 520-537: build a temporary `Vec`
from the region's base pointer, its `elements()` count and the stored
capacity; run the callback on it (pure rendering: the callback returns its
result and the final state of the `Vec`); then write only the final `Vec`'s
base pointer and capacity (and the shared memory contents) back into the
handle — its element length is not read back, and the region's head and bit
length are untouched. -/
def with_vec {R : Type} (w : Nat) (b : BitBuf) (func : MVec → R × MVec) :
    R × BitBuf :=
  let v0 : MVec :=
    { base := b.base, length := elements w b.head b.len, cap := b.cap,
      mem := b.mem }
  let out := func v0
  (out.1, { b with base := out.2.base, cap := out.2.cap, mem := out.2.mem })

/-- Concrete buffer for the C5 witness: head 2, 4 live bits. -/
def exC5 : BitBuf :=
  { base := 0, head := 2, len := 4, cap := 1, mem := fun j => j == 3 }

/-- Concrete buffer for the C7 witness: the spec example bits 1,0,1. -/
def exC7 : BitBuf :=
  { base := 0, head := 0, len := 3, cap := 1, mem := fun j => j == 0 || j == 2 }

/-- Concrete region for the C7 witness: the spec example bits 1,1. -/
def exC7R : List Bool :=
  [true, true]

/-- Concrete buffer for the C9 witness: a full one-element allocation, so any
reservation forces reallocation. -/
def exC9 : BitBuf :=
  { base := 5, head := 1, len := 7, cap := 1, mem := fun j => j % 2 == 1 }

/-- C3: normalize_range maps any range shape to a half-open pair: an absent
start becomes 0, an absent end becomes the supplied default end, an inclusive
end n becomes n+1 with no clamping against the default end; an unbounded start
with inclusive end 4 against default end 10 yields (0, 5), and inclusive start
2 with unbounded end yields (2, 10). -/
theorem normalize_range_spec :
    (∀ eb e, (normalize_range Bound.unbounded eb e).1 = 0) ∧
    (∀ sb e, (normalize_range sb Bound.unbounded e).2 = e) ∧
    (∀ sb n e, (normalize_range sb (Bound.included n) e).2 = n + 1) ∧
    normalize_range Bound.unbounded (Bound.included 4) 10 = (0, 5) ∧
    normalize_range (Bound.included 2) Bound.unbounded 10 = (2, 10) :=
  ⟨fun _ _ => rfl, fun _ _ => rfl, fun _ _ _ => rfl, rfl, rfl⟩

/-- C4: assert_range succeeds exactly when the range is well-formed
(start ≤ stop) and within the limit when one is supplied; a malformed range
fails with the distinct malformed error naming start and stop, an in-order
range past the limit fails with the distinct out-of-bounds error naming start,
stop and limit; (5, 3) is malformed against any limit, (0, 11) is
out-of-bounds against limit 10, and (0, 10) against limit 10 succeeds. -/
theorem assert_range_spec :
    (∀ s t l, assert_range s t l = Except.ok () ↔
      (s ≤ t ∧ ∀ e, l = some e → t ≤ e)) ∧
    (∀ s t l, s > t →
      assert_range s t l = Except.error (RangeError.malformed s t)) ∧
    (∀ s t e, s ≤ t → t > e →
      assert_range s t (some e) =
        Except.error (RangeError.outOfBounds s t e)) ∧
    (∀ l, assert_range 5 3 l = Except.error (RangeError.malformed 5 3)) ∧
    assert_range 0 11 (some 10) =
      Except.error (RangeError.outOfBounds 0 11 10) ∧
    assert_range 0 10 (some 10) = Except.ok () := by
  refine ⟨?_, ?_, ?_, ?_, rfl, rfl⟩
  · intro s t l
    rcases l with _ | e
    · by_cases hst : s > t
      · simp only [assert_range, if_pos hst]
        constructor
        · intro h; exact absurd h (by simp)
        · intro h; omega
      · simp only [assert_range, if_neg hst]
        simp only [true_iff, reduceCtorEq, false_implies, implies_true,
          and_true]
        omega
    · by_cases hst : s > t
      · simp only [assert_range, if_pos hst]
        constructor
        · intro h; exact absurd h (by simp)
        · intro h
          have := h.2 e rfl
          omega
      · by_cases hte : t > e
        · simp only [assert_range, if_neg hst, if_pos hte]
          constructor
          · intro h; exact absurd h (by simp)
          · intro h
            have := h.2 e rfl
            omega
        · simp only [assert_range, if_neg hst, if_neg hte]
          constructor
          · intro _
            refine ⟨by omega, ?_⟩
            intro x hx
            cases hx
            omega
          · intro _; trivial
  · intro s t l hst
    rcases l with _ | e <;> simp [assert_range, hst]
  · intro s t e hst hte
    simp [assert_range, hte]
    omega
  · intro l
    rcases l with _ | e <;> rfl

/-- C4 witness: the theorem applied at the spec's own examples. -/
theorem assert_range_spec_witness :
    assert_range 5 3 none = Except.error (RangeError.malformed 5 3) ∧
    assert_range 0 11 (some 10) =
      Except.error (RangeError.outOfBounds 0 11 10) :=
  ⟨assert_range_spec.2.1 5 3 none (by decide),
   assert_range_spec.2.2.1 0 11 10 (by decide) (by decide)⟩

/-- Helper: strict monotonicity of ceiling division below the numerator. -/
theorem div_lt_ceil (w i n : Nat) (hw : 0 < w) (hin : i < n) :
    i / w < (n + w - 1) / w :=
  calc i / w < i / w + 1 := Nat.lt_succ_self _
    _ = (i + w) / w := (Nat.add_div_right i hw).symm
    _ ≤ (n + w - 1) / w := Nat.div_le_div_right (by omega)

/-- Helper: the `(n + w - 1) / w` rendering of ceiling division agrees with
the quotient-plus-remainder-carry characterization. -/
theorem ceilDiv_eq (w n : Nat) (hw : 0 < w) :
    (n + w - 1) / w = n / w + (if n % w = 0 then 0 else 1) := by
  have h1 : n + w - 1 = n + (w - 1) := by omega
  have h2 : (w - 1) / w = 0 := Nat.div_eq_of_lt (by omega)
  have h3 : (w - 1) % w = w - 1 := Nat.mod_eq_of_lt (by omega)
  have h4 : n % w < w := Nat.mod_lt n hw
  rw [h1, Nat.add_div hw, h2, h3]
  by_cases h0 : n % w = 0
  · rw [if_pos h0, if_neg (by omega)]
  · rw [if_neg h0, if_pos (by omega)]

/-- C1 counterexample: bulk element fill on a concrete buffer with two
allocated elements but only one touched element leaves allocated element 1
unchanged (it still holds 0, not the fill value 165), refuting the claim that
afterwards each allocated element equals the fill value. -/
theorem set_elements_not_all_allocated :
    ¬ ∀ i, i < (set_elements 8 exC1 165).cap →
      (set_elements 8 exC1 165).mem i = 165 :=
  fun h => absurd (h 1 (by decide)) (by decide)

/-- C1 (amended): set_elements overwrites exactly the elements touched by the
live region (the first `elements()` allocated elements) with the fill value,
leaving head, length, capacity and every allocated element beyond the touched
span unchanged. -/
theorem set_elements_spec (w : Nat) (b : EBuf) (v : Nat) :
    (set_elements w b v).cap = b.cap ∧
    (set_elements w b v).len = b.len ∧
    (set_elements w b v).head = b.head ∧
    (∀ i, i < elements w b.head b.len → (set_elements w b v).mem i = v) ∧
    (∀ i, elements w b.head b.len ≤ i →
      (set_elements w b v).mem i = b.mem i) := by
  refine ⟨rfl, rfl, rfl, ?_, ?_⟩
  · intro i hi
    simp [set_elements, hi]
  · intro i hi
    simp [set_elements, Nat.not_lt.mpr hi]

/-- C1 witness: the amended theorem applied at the counterexample buffer. -/
theorem set_elements_spec_witness :
    (set_elements 8 exC1 165).mem 0 = 165 ∧
    (set_elements 8 exC1 165).mem 1 = exC1.mem 1 :=
  ⟨(set_elements_spec 8 exC1 165).2.2.2.1 0 (by decide),
   (set_elements_spec 8 exC1 165).2.2.2.2 1 (by decide)⟩

/-- C2: repeat(bit, len) yields a buffer whose live length is exactly len and
in which every live bit equals bit. -/
theorem repeat_spec (w : Nat) (bit : Bool) (len junk : Nat) (hw : 0 < w) :
    (repeatBits w bit len junk).len = len ∧
    ∀ i, i < len → getBit w (repeatBits w bit len junk) i = bit := by
  refine ⟨rfl, ?_⟩
  intro i hi
  have hdiv : (0 + i) / w < elements w 0 len := by
    unfold elements
    simpa using div_lt_ceil w i len hw hi
  have hmod : (0 + i) % w < w := Nat.mod_lt _ hw
  simp only [repeatBits, set_elements, set_len, with_capacity, getBit]
  rw [if_pos hdiv]
  cases bit
  · simp
  · simp [Nat.testBit_two_pow_sub_one]
    exact Nat.mod_lt _ hw

/-- C2 witness: the theorem applied at 8-bit elements, bit 1, length 10. -/
theorem repeat_spec_witness :
    (repeatBits 8 true 10 7).len = 10 ∧
    getBit 8 (repeatBits 8 true 10 7) 9 = true :=
  ⟨(repeat_spec 8 true 10 7 (by decide)).1,
   (repeat_spec 8 true 10 7 (by decide)).2 9 (by decide)⟩

/-- C8: the touched-element count of a valid handle equals
ceil((head + len) / bits_per_element); with 8-bit elements, head 2 and length
4 touch 1 element while head 6 and length 4 touch 2. -/
theorem elements_spec (w hd l : Nat) (hw : 0 < w) :
    elements w hd l =
      (hd + l) / w + (if (hd + l) % w = 0 then 0 else 1) ∧
    elements 8 2 4 = 1 ∧ elements 8 6 4 = 2 :=
  ⟨ceilDiv_eq w (hd + l) hw, rfl, rfl⟩

/-- C8 witness: the theorem applied at 8-bit elements, head 2, length 4. -/
theorem elements_spec_witness :
    elements 8 2 4 = (2 + 4) / 8 + (if (2 + 4) % 8 = 0 then 0 else 1) ∧
    elements 8 6 4 = 2 :=
  ⟨(elements_spec 8 2 4 (by decide)).1, (elements_spec 8 2 4 (by decide)).2.2⟩

/-- Helper: force_align is the identity on an already-aligned buffer. -/
theorem force_align_of_head_zero (b : BitBuf) (h : b.head = 0) :
    force_align b = b := by
  simp [force_align, h]

/-- Helper: force_align always leaves the head at 0. -/
theorem head_force_align (b : BitBuf) : (force_align b).head = 0 := by
  unfold force_align
  split
  · assumption
  · rfl

/-- Helper: reserve never changes the head offset. -/
theorem reserve_head (w : Nat) (b : BitBuf) (a : Nat) :
    (reserve w b a).head = b.head := by
  unfold reserve
  split <;> rfl

/-- Helper: reserve never changes the live bit length. -/
theorem reserve_len (w : Nat) (b : BitBuf) (a : Nat) :
    (reserve w b a).len = b.len := by
  unfold reserve
  split <;> rfl

/-- Helper: reserve carries the memory contents over unchanged. -/
theorem reserve_mem (w : Nat) (b : BitBuf) (a : Nat) :
    (reserve w b a).mem = b.mem := by
  unfold reserve
  split <;> rfl

/-- C5: force_align results in head offset 0 with the live length unchanged
and every live bit preserved, the window [head, head+len) having been copied
down to position 0. -/
theorem force_align_spec (b : BitBuf) :
    (force_align b).head = 0 ∧ (force_align b).len = b.len ∧
    ∀ i, i < b.len → liveBit (force_align b) i = liveBit b i := by
  unfold force_align liveBit
  by_cases h : b.head = 0
  · simp [h]
  · simp only [if_neg h]
    refine ⟨trivial, trivial, ?_⟩
    intro i hi
    simp [hi]

/-- C5 witness: the theorem applied at a concrete buffer with head 2 and 4
live bits. -/
theorem force_align_spec_witness :
    (force_align exC5).head = 0 ∧ (force_align exC5).len = exC5.len ∧
    liveBit (force_align exC5) 1 = liveBit exC5 1 :=
  ⟨(force_align_spec exC5).1, (force_align_spec exC5).2.1,
   (force_align_spec exC5).2.2 1 (by decide)⟩

/-- C6: force_align is idempotent — the second call observes head 0 and does
nothing. -/
theorem force_align_idem (b : BitBuf) :
    force_align (force_align b) = force_align b :=
  force_align_of_head_zero (force_align b) (head_force_align b)

/-- C7: extend_from_bitslice grows the live length by exactly the region's
length, the new tail bits equal the region's bits in order, and the original
bits are unchanged. -/
theorem extend_from_bitslice_spec (w : Nat) (b : BitBuf) (other : List Bool) :
    (extend_from_bitslice w b other).len = b.len + other.length ∧
    (∀ i, i < other.length →
      liveBit (extend_from_bitslice w b other) (b.len + i) =
        other.getD i false) ∧
    (∀ i, i < b.len →
      liveBit (extend_from_bitslice w b other) i = liveBit b i) := by
  simp only [extend_from_bitslice, liveBit, reserve_head, reserve_len,
    reserve_mem]
  refine ⟨trivial, ?_, ?_⟩
  · intro i hi
    rw [if_pos (by omega)]
    have h1 : b.head + (b.len + i) - (b.head + b.len) = i := by omega
    rw [h1]
  · intro i hi
    rw [if_neg (by omega)]

/-- C7 witness: the theorem applied at the spec's example, bits 1,0,1
extended by bits 1,1, giving length 5. -/
theorem extend_from_bitslice_spec_witness :
    (extend_from_bitslice 8 exC7 exC7R).len = exC7.len + exC7R.length ∧
    liveBit (extend_from_bitslice 8 exC7 exC7R) (exC7.len + 0) =
      exC7R.getD 0 false ∧
    liveBit (extend_from_bitslice 8 exC7 exC7R) 0 = liveBit exC7 0 :=
  ⟨(extend_from_bitslice_spec 8 exC7 exC7R).1,
   (extend_from_bitslice_spec 8 exC7 exC7R).2.1 0 (by decide),
   (extend_from_bitslice_spec 8 exC7 exC7R).2.2 0 (by decide)⟩

/-- C9: reserve never shrinks capacity and never alters the live length, the
head offset or any live bit; when it must reallocate, the base address
changes while head, length and content are unchanged. -/
theorem reserve_spec (w : Nat) (b : BitBuf) (additional : Nat) :
    b.cap ≤ (reserve w b additional).cap ∧
    (reserve w b additional).len = b.len ∧
    (reserve w b additional).head = b.head ∧
    (∀ i, i < b.len → liveBit (reserve w b additional) i = liveBit b i) ∧
    (¬ b.head + b.len + additional ≤ b.cap * w →
      (reserve w b additional).base ≠ b.base) := by
  unfold reserve
  by_cases h : b.head + b.len + additional ≤ b.cap * w
  · simp only [if_pos h]
    exact ⟨Nat.le_refl _, trivial, trivial, fun _ _ => trivial,
      fun hc => absurd h hc⟩
  · simp only [if_neg h]
    refine ⟨?_, trivial, trivial, fun _ _ => rfl,
      fun _ => show b.base + b.cap + 1 ≠ b.base by omega⟩
    exact Nat.le_trans (by omega) (Nat.le_max_left (2 * b.cap) _)

/-- C9 witness: the theorem applied at a concrete full buffer where reserving
4 more bits forces reallocation. -/
theorem reserve_spec_witness :
    exC9.cap ≤ (reserve 8 exC9 4).cap ∧
    liveBit (reserve 8 exC9 4) 0 = liveBit exC9 0 ∧
    (reserve 8 exC9 4).base ≠ exC9.base :=
  ⟨(reserve_spec 8 exC9 4).1,
   (reserve_spec 8 exC9 4).2.2.2.1 0 (by decide),
   (reserve_spec 8 exC9 4).2.2.2.2 (by decide)⟩

/-- C10: with_vec returns exactly the callback's return value, and afterwards
only the base address, the capacity (and the shared memory) are re-derived
from the temporary Vec the callback mutated; the head offset and the bit
length are unchanged no matter what the callback did to the Vec's element
length. -/
theorem with_vec_spec {R : Type} (w : Nat) (b : BitBuf)
    (func : MVec → R × MVec) :
    (with_vec w b func).1 =
      (func { base := b.base, length := elements w b.head b.len,
              cap := b.cap, mem := b.mem }).1 ∧
    (with_vec w b func).2.head = b.head ∧
    (with_vec w b func).2.len = b.len ∧
    (with_vec w b func).2.base =
      (func { base := b.base, length := elements w b.head b.len,
              cap := b.cap, mem := b.mem }).2.base ∧
    (with_vec w b func).2.cap =
      (func { base := b.base, length := elements w b.head b.len,
              cap := b.cap, mem := b.mem }).2.cap :=
  ⟨rfl, rfl, rfl, rfl, rfl⟩

end BitvecModel
